import Mathlib

/-!
Shallow embedding of the concurrent work-distribution core of the
`cpp-learning` repository: the thread-safe FIFO `MessageQueue`
(src/MessageQueue.cpp), the `MessageHandler` worker pool and the
event-driven `StateMachine` (both in src/main.cpp), together with proofs
of the spec-level properties about them.

Modelling conventions:
* A `MessagePtr` (a possibly-null shared pointer) is an `Option Msg`,
  where `Msg` abstracts the message object by a natural-number identity.
* The queue's mutex-protected state is a record `(queue, stopped)`;
  the blocking `dequeue` returns `none` when the call would block and
  `some (result, newState)` when it returns.
* Machine-level sequential operations are pure state transformers;
  the multi-threaded `MessageHandler.stop` contract is modelled by an
  explicit interleaving step relation `HStep` further below.
-/

/-- Abstract message identity (the content of a `MessagePtr` target). -/
abbrev Msg := Nat

/-- State guarded by `MessageQueue::mutex_`: the backing `std::queue`
(front of the list = front of the queue) and the `stopped_` flag. -/
structure MessageQueue where
  queue : List Msg
  stopped : Bool
deriving DecidableEq, Repr

/-- C++ `MessageQueue::enqueue`: a null message is ignored; when the
queue is stopped the message is silently dropped; otherwise it is pushed
at the back. -/
def MessageQueue.enqueue (s : MessageQueue) (message : Option Msg) : MessageQueue :=
  match message with
  | none => s
  | some m => if s.stopped then s else { s with queue := s.queue ++ [m] }

/-- C++ `MessageQueue::dequeue`: waits until the queue is non-empty or
stopped (outer `none` = the call blocks); once awake it returns
`std::nullopt` when stopped and empty, and otherwise pops the front. -/
def MessageQueue.dequeue (s : MessageQueue) : Option (Option Msg × MessageQueue) :=
  if s.queue.isEmpty && !s.stopped then
    none
  else if s.stopped && s.queue.isEmpty then
    some (none, s)
  else
    match s.queue with
    | [] => some (none, s)
    | m :: rest => some (some m, { s with queue := rest })

/-- C++ `MessageQueue::tryDequeue`: non-blocking front pop. -/
def MessageQueue.tryDequeue (s : MessageQueue) : Option Msg × MessageQueue :=
  match s.queue with
  | [] => (none, s)
  | m :: rest => (some m, { s with queue := rest })

/-- C++ `MessageQueue::size`. -/
def MessageQueue.size (s : MessageQueue) : Nat :=
  s.queue.length

/-- C++ `MessageQueue::empty`. -/
def MessageQueue.isEmpty (s : MessageQueue) : Bool :=
  s.queue.isEmpty

/-- C++ `MessageQueue::stop`: sets the `stopped_` flag (and wakes all
waiters; waking is implicit in the blocking model of `dequeue`). -/
def MessageQueue.stop (s : MessageQueue) : MessageQueue :=
  { s with stopped := true }

/-- C++ `MessageQueue::isStopped`. -/
def MessageQueue.isStopped (s : MessageQueue) : Bool :=
  s.stopped

/-- C++ `MessageQueue::clear`: discards all queued items, leaving the
`stopped_` flag untouched. -/
def MessageQueue.clear (s : MessageQueue) : MessageQueue :=
  { s with queue := [] }

/-- Results of `n` successive `dequeue` calls, collecting the returned
messages; stops early when a call blocks or reports "none". -/
def MessageQueue.drainN : Nat → MessageQueue → List Msg
  | 0, _ => []
  | Nat.succ n, s =>
    match s.dequeue with
    | some (some m, s') => m :: MessageQueue.drainN n s'
    | _ => []

/-- Enqueue a list of (non-null) messages in order. -/
def MessageQueue.enqueueList (s : MessageQueue) (es : List Msg) : MessageQueue :=
  es.foldl (fun t e => t.enqueue (some e)) s

/-- One call through the public `MessageQueue` interface (the mutating
operations of MessageQueue.h; `size`, `empty` and `isStopped` are pure
observers and do not change the state). -/
inductive QueueOp
  | enqueueOp (m : Option Msg)
  | dequeueOp
  | tryDequeueOp
  | stopOp
  | clearOp

/-- Apply one interface call to the queue state; a blocked `dequeue`
leaves the state unchanged. -/
def MessageQueue.applyOp (s : MessageQueue) : QueueOp → MessageQueue
  | QueueOp.enqueueOp m => s.enqueue m
  | QueueOp.dequeueOp =>
    match s.dequeue with
    | some (_, s') => s'
    | none => s
  | QueueOp.tryDequeueOp => (s.tryDequeue).2
  | QueueOp.stopOp => s.stop
  | QueueOp.clearOp => s.clear

/-- Sequential model of one `MessageHandler::workerThread` loop with the
handler's `running_` flag frozen at `running`: while the flag is set or
the queue is non-empty, call `dequeue`; exit on a "none" result (stopped
and drained) or when the call would block; otherwise process the popped
message.  Returns the processed messages; `fuel` bounds the iterations. -/
def workerLoop (running : Bool) : Nat → MessageQueue → List Msg → List Msg
  | 0, _, acc => acc
  | Nat.succ fuel, q, acc =>
    if running || !q.queue.isEmpty then
      match q.dequeue with
      | some (some m, q') => workerLoop running fuel q' (acc ++ [m])
      | some (none, _) => acc
      | none => acc
    else acc

/-- Guard payloads.  The C++ guards are predicates over a `std::any`
event payload; the tests use integer payloads, so the payload type is
modelled as `Int`. -/
abbrev Payload := Int

/-- A `State` object as seen by the dispatch logic of `StateMachine`:
its `onEvent` hook reports whether it handled a given (event, payload).
The `onEnter`/`onExit`/`onUpdate` hooks return nothing; their
invocations are recorded in the call trace.  Hooks are modelled as
non-re-entrant observers (they do not call back into the machine). -/
structure State where
  handlesEvent : String → Payload → Bool

/-- C++ `StateMachine::Transition`: endpoints, event and optional guard. -/
structure Transition where
  fromState : String
  event : String
  toState : String
  guard : Option (Payload → Bool)

/-- Look up the value stored under `k` in an association list modelling
`std::unordered_map` (first match wins; maps built through the machine
API keep keys unique). -/
def lookupA {β : Type} (k : String) : List (String × β) → Option β
  | [] => none
  | (k', v) :: rest => if k' = k then some v else lookupA k rest

/-- `std::unordered_map::erase(key)`: drop the entry stored under `k`. -/
def eraseA {β : Type} (k : String) : List (String × β) → List (String × β)
  | [] => []
  | (k', v) :: rest => if k' = k then rest else (k', v) :: eraseA k rest

/-- `map[k] = v`: overwrite the entry under `k`, or append a new one. -/
def setA {β : Type} (k : String) (v : β) : List (String × β) → List (String × β)
  | [] => [(k, v)]
  | (k', w) :: rest => if k' = k then (k, v) :: rest else (k', w) :: setA k v rest

/-- `std::unordered_map::emplace(k, v)`: insert only when `k` is absent
(the existing entry is kept on a duplicate key). -/
def insertIfAbsent {β : Type} (k : String) (v : β) (l : List (String × β)) :
    List (String × β) :=
  match lookupA k l with
  | some _ => l
  | none => l ++ [(k, v)]

/-- One observable callback made by the `StateMachine` dispatch code, in
program order: a guard evaluation inside `findTransition`, an `onEvent`
hook call, an `onExit`/`onEnter` hook call, or the external transition
callback. -/
inductive TraceEvent
  | guardEval (event : String) (payload : Payload) (result : Bool)
  | onEventCall (event : String) (payload : Payload) (handled : Bool)
  | onExitCall (state : String)
  | callbackCall (fromState toState : String)
  | onEnterCall (state : String)
deriving DecidableEq

/-- The mutex-protected fields of the C++ `StateMachine`.
`transitions` mirrors the nested map `fromState -> (event -> Transition)`;
`transitionCallback` records whether an external callback is installed
(its only modelled effect is the `callbackCall` trace entry). -/
structure StateMachine where
  states : List (String × State)
  transitions : List (String × List (String × Transition))
  initialState : String
  currentState : String
  running : Bool
  stateHistory : List String
  transitionCallback : Bool

/-- C++ `StateMachine::MAX_HISTORY`. -/
def StateMachine.MAX_HISTORY : Nat := 50

/-- A freshly constructed `StateMachine`. -/
def StateMachine.mkNew : StateMachine :=
  { states := [], transitions := [], initialState := "", currentState := "",
    running := false, stateHistory := [], transitionCallback := false }

/-- C++ `StateMachine::addState`: rejects a null state pointer or a
duplicate name, otherwise registers the state. -/
def StateMachine.addState (sm : StateMachine) (name : String)
    (state : Option State) : Bool × StateMachine :=
  match state with
  | none => (false, sm)
  | some st =>
    match lookupA name sm.states with
    | some _ => (false, sm)
    | none => (true, { sm with states := sm.states ++ [(name, st)] })

/-- The transition-purge loop of `StateMachine::removeState`: drop the
outer entry keyed by `name` (`transitions_.erase(name)`), then erase
from every remaining event map the entries whose `toState` is `name`. -/
def purgeTransitionsOf (name : String)
    (l : List (String × List (String × Transition))) :
    List (String × List (String × Transition)) :=
  (eraseA name l).map fun p =>
    (p.1, p.2.filter fun q => decide ¬(q.2.toState = name))

/-- C++ `StateMachine::removeState`: refuses to remove the currently
active state of a running machine; otherwise removes the state and
purges every Transition whose from- or to-endpoint is that name. -/
def StateMachine.removeState (sm : StateMachine) (name : String) :
    Bool × StateMachine :=
  if sm.currentState = name ∧ sm.running = true then (false, sm)
  else
    match lookupA name sm.states with
    | none => (false, sm)
    | some _ =>
      (true, { sm with states := eraseA name sm.states,
                       transitions := purgeTransitionsOf name sm.transitions })

/-- C++ `StateMachine::addTransition`: fails unless both endpoints name
registered states; then `transitions_[from].emplace(event, t)` inserts
only if the (from, event) key is still free, and `true` is returned
either way. -/
def StateMachine.addTransition (sm : StateMachine)
    (fromState event toState : String) (guard : Option (Payload → Bool)) :
    Bool × StateMachine :=
  if (lookupA fromState sm.states).isNone ∨ (lookupA toState sm.states).isNone then
    (false, sm)
  else
    let t : Transition := ⟨fromState, event, toState, guard⟩
    let inner := (lookupA fromState sm.transitions).getD []
    (true, { sm with
      transitions := setA fromState (insertIfAbsent event t inner) sm.transitions })

/-- C++ `StateMachine::removeTransition`. -/
def StateMachine.removeTransition (sm : StateMachine)
    (fromState event : String) : Bool × StateMachine :=
  match lookupA fromState sm.transitions with
  | none => (false, sm)
  | some inner =>
    match lookupA event inner with
    | none => (false, sm)
    | some _ =>
      (true, { sm with
        transitions := setA fromState (eraseA event inner) sm.transitions })

/-- C++ `StateMachine::setInitialState`. -/
def StateMachine.setInitialState (sm : StateMachine) (stateName : String) :
    Bool × StateMachine :=
  match lookupA stateName sm.states with
  | none => (false, sm)
  | some _ => (true, { sm with initialState := stateName })

/-- C++ `StateMachine::start`: fails when already running, when no
initial state is configured, or when it is not registered; otherwise
sets the running flag and current state, resets the history to the
single initial entry, and invokes the initial state's `onEnter` after
releasing the lock. -/
def StateMachine.start (sm : StateMachine) :
    Bool × StateMachine × List TraceEvent :=
  if sm.running = true then (false, sm, [])
  else if sm.initialState = "" then (false, sm, [])
  else
    match lookupA sm.initialState sm.states with
    | none => (false, sm, [])
    | some _ =>
      (true,
       { sm with running := true, currentState := sm.initialState,
                 stateHistory := [sm.initialState] },
       [TraceEvent.onEnterCall sm.initialState])

/-- C++ `StateMachine::stop`: a no-op when not running; otherwise calls
`onExit` on the resolved current state outside the lock, then clears the
running flag and the current state. -/
def StateMachine.stop (sm : StateMachine) : StateMachine × List TraceEvent :=
  if sm.running = false then (sm, [])
  else
    let trace :=
      if sm.currentState ≠ "" ∧ (lookupA sm.currentState sm.states).isSome then
        [TraceEvent.onExitCall sm.currentState]
      else []
    ({ sm with running := false, currentState := "" }, trace)

/-- C++ `StateMachine::findTransition` (called with the lock held):
resolves the Transition registered for (fromState, event) and, when a
guard is present, evaluates it right there — returning "" when the
lookup fails or the guard rejects.  The guard evaluation is recorded in
the returned trace. -/
def StateMachine.findTransition (sm : StateMachine)
    (fromState event : String) (eventData : Payload) :
    String × List TraceEvent :=
  match lookupA fromState sm.transitions with
  | none => ("", [])
  | some inner =>
    match lookupA event inner with
    | none => ("", [])
    | some t =>
      match t.guard with
      | some g =>
        if g eventData then (t.toState, [TraceEvent.guardEval event eventData true])
        else ("", [TraceEvent.guardEval event eventData false])
      | none => (t.toState, [])

/-- C++ `StateMachine::performTransition`: phase 1 under the lock checks
the machine is running with a current state and that the destination is
registered, updates `currentState_`, appends the destination to the
history and evicts the oldest entry when `MAX_HISTORY` is exceeded;
phase 2, after unlocking, calls `onExit` on the (resolved) from-state,
the external callback when installed, and `onEnter` on the to-state. -/
def StateMachine.performTransition (sm : StateMachine) (toState : String)
    (_context : Payload) : Bool × StateMachine × List TraceEvent :=
  if sm.running = false ∨ sm.currentState = "" then (false, sm, [])
  else
    match lookupA toState sm.states with
    | none => (false, sm, [])
    | some _ =>
      let fromState := sm.currentState
      let hist1 := sm.stateHistory ++ [toState]
      let hist2 := if hist1.length > StateMachine.MAX_HISTORY then hist1.drop 1 else hist1
      let exitTrace :=
        if (lookupA fromState sm.states).isSome then
          [TraceEvent.onExitCall fromState]
        else []
      let cbTrace :=
        if sm.transitionCallback then [TraceEvent.callbackCall fromState toState]
        else []
      (true,
       { sm with currentState := toState, stateHistory := hist2 },
       exitTrace ++ cbTrace ++ [TraceEvent.onEnterCall toState])

/-- C++ `StateMachine::triggerEvent`: fails fast when not running or
without a current state; under the lock resolves the current state and
calls `findTransition` (which evaluates any guard); after unlocking
invokes the current state's `onEvent`; a handled event is absorbed
(return true, no transition); otherwise a non-empty lookup result runs
`performTransition`.  The trace lists the callbacks in program order. -/
def StateMachine.triggerEvent (sm : StateMachine) (eventName : String)
    (eventData : Payload) : Bool × StateMachine × List TraceEvent :=
  if sm.running = false then (false, sm, [])
  else if sm.currentState = "" then (false, sm, [])
  else
    let currentStatePtr := lookupA sm.currentState sm.states
    let found := sm.findTransition sm.currentState eventName eventData
    let handled :=
      match currentStatePtr with
      | some st => st.handlesEvent eventName eventData
      | none => false
    let evTrace :=
      match currentStatePtr with
      | some st =>
        [TraceEvent.onEventCall eventName eventData (st.handlesEvent eventName eventData)]
      | none => []
    if handled = true then (true, sm, found.2 ++ evTrace)
    else if found.1 ≠ "" then
      let r := sm.performTransition found.1 eventData
      (r.1, r.2.1, found.2 ++ evTrace ++ r.2.2)
    else (false, sm, found.2 ++ evTrace)

/-- C++ `StateMachine::getStateHistory`: returns the suffix of the
retained history starting at `size - maxHistory` when the history is
longer than `maxHistory`, and the whole history otherwise. -/
def StateMachine.getStateHistory (sm : StateMachine) (maxHistory : Nat) :
    List String :=
  let start :=
    if sm.stateHistory.length > maxHistory then sm.stateHistory.length - maxHistory
    else 0
  sm.stateHistory.drop start

/-- C++ `StateMachine::getCurrentState`. -/
def StateMachine.getCurrentState (sm : StateMachine) : String :=
  sm.currentState

/-- C++ `StateMachine::isValidTransition`. -/
def StateMachine.isValidTransition (sm : StateMachine)
    (fromState event : String) : Bool :=
  match lookupA fromState sm.transitions with
  | none => false
  | some inner => (lookupA event inner).isSome

/-- Iterate `performTransition` over a list of destinations (payload 0),
keeping the machine state. -/
def StateMachine.runTransitions (sm : StateMachine) (dests : List String) :
    StateMachine :=
  dests.foldl (fun m d => (m.performTransition d 0).2.1) sm

/-- The last `n` elements of a list (the most recent window of a
chronological log). -/
def lastN {α : Type} (n : Nat) (l : List α) : List α :=
  l.drop (l.length - n)

/-- Program counter of one `MessageHandler::workerThread` loop:
about to test the loop condition, inside `queue_.dequeue()`, holding a
dequeued message and about to invoke the processor, or exited. -/
inductive WorkerPC
  | check
  | dequeuing
  | processing (m : Msg)
  | done
deriving DecidableEq

/-- Program counter of the thread executing `MessageHandler::stop()`:
not yet called, after `running_.store(false)`, after `queue_.stop()`,
and after joining every worker (`stop()` has returned). -/
inductive StopPC
  | idle
  | cleared
  | qstopped
  | returned
deriving DecidableEq

/-- Global state of the handler/queue system: the shared queue contents
and its stopped flag, the handler's `running_` flag, the stopping
thread's position, the worker pool (a multiset, since the workers run
identical code), the log of messages each processor call received, and
a ghost log `enqueued` of every message the queue accepted (exactly
those enqueued strictly before the queue's stop signal, because
`enqueue` rejects messages once the flag is set). -/
structure HandlerSys where
  queue : List Msg
  enqueued : List Msg
  processed : List Msg
  running : Bool
  qstop : Bool
  stopPC : StopPC
  workers : Multiset WorkerPC

/-- The message a worker currently holds between `dequeue` and the
processor invocation. -/
def WorkerPC.held : WorkerPC → Multiset Msg
  | WorkerPC.processing m => {m}
  | _ => 0

/-- All messages currently held by workers. -/
def HandlerSys.inflight (s : HandlerSys) : Multiset Msg :=
  (s.workers.map WorkerPC.held).sum

/-- Initial state: `msgs` already queued, handler started with `n`
workers, stop not yet requested. -/
def initSys (msgs : List Msg) (n : Nat) : HandlerSys :=
  { queue := msgs, enqueued := msgs, processed := [], running := true,
    qstop := false, stopPC := StopPC.idle,
    workers := Multiset.replicate n WorkerPC.check }

/-- Interleaving semantics of the `MessageHandler`/`MessageQueue` pair.
Worker steps follow `workerThread` (the loop test reads `running_` and
`queue_.empty()` in one step — an abstraction that only widens the set
of behaviours a separate read pair would produce is not needed for the
claims, since the two reads admit the same outcomes); `dequeue` pops the
front when non-empty, returns "none" when stopped and empty, and blocks
(no enabled step) when un-stopped and empty.  Producer `enqueue` steps
are accepted exactly while the queue is not stopped.  The stop steps
mirror `MessageHandler::stop`: clear `running_`, stop the queue, then
join, which completes only when every worker has exited. -/
inductive HStep : HandlerSys → HandlerSys → Prop
  | enqueue (s : HandlerSys) (m : Msg) (h : s.qstop = false) :
      HStep s { s with queue := s.queue ++ [m], enqueued := s.enqueued ++ [m] }
  | checkEnter (s : HandlerSys) (ws : Multiset WorkerPC)
      (h : s.workers = WorkerPC.check ::ₘ ws)
      (hc : s.running = true ∨ s.queue ≠ []) :
      HStep s { s with workers := WorkerPC.dequeuing ::ₘ ws }
  | checkExit (s : HandlerSys) (ws : Multiset WorkerPC)
      (h : s.workers = WorkerPC.check ::ₘ ws)
      (hr : s.running = false) (hq : s.queue = []) :
      HStep s { s with workers := WorkerPC.done ::ₘ ws }
  | deqPop (s : HandlerSys) (ws : Multiset WorkerPC) (m : Msg) (rest : List Msg)
      (h : s.workers = WorkerPC.dequeuing ::ₘ ws) (hq : s.queue = m :: rest) :
      HStep s { s with queue := rest, workers := WorkerPC.processing m ::ₘ ws }
  | deqNone (s : HandlerSys) (ws : Multiset WorkerPC)
      (h : s.workers = WorkerPC.dequeuing ::ₘ ws)
      (hq : s.queue = []) (hs : s.qstop = true) :
      HStep s { s with workers := WorkerPC.done ::ₘ ws }
  | processStep (s : HandlerSys) (ws : Multiset WorkerPC) (m : Msg)
      (h : s.workers = WorkerPC.processing m ::ₘ ws) :
      HStep s { s with processed := s.processed ++ [m],
                       workers := WorkerPC.check ::ₘ ws }
  | stopClear (s : HandlerSys) (h : s.stopPC = StopPC.idle) :
      HStep s { s with running := false, stopPC := StopPC.cleared }
  | stopQueue (s : HandlerSys) (h : s.stopPC = StopPC.cleared) :
      HStep s { s with qstop := true, stopPC := StopPC.qstopped }
  | stopJoin (s : HandlerSys) (h : s.stopPC = StopPC.qstopped)
      (hw : ∀ w ∈ s.workers, w = WorkerPC.done) :
      HStep s { s with stopPC := StopPC.returned }

/-- A step with no producer racing against `stop()`: successful
enqueues (the only steps that change the `enqueued` log) happen only
before `stop()` has started. -/
def HStepNoRace (s t : HandlerSys) : Prop :=
  HStep s t ∧ (s.stopPC = StopPC.idle ∨ t.enqueued = s.enqueued)

/-- Reachability along arbitrary interleavings. -/
def HReach : HandlerSys → HandlerSys → Prop :=
  Relation.ReflTransGen HStep

/-- Reachability along interleavings without an enqueue racing `stop()`. -/
def HReachNoRace : HandlerSys → HandlerSys → Prop :=
  Relation.ReflTransGen HStepNoRace

/-- The inductive invariant of the handler/queue system (for runs with
no enqueue racing `stop()`): conservation of messages between queue,
in-flight workers and the processed log; the links between the flags and
the stopping thread's position; that an exited worker implies an empty
(and, absent racing enqueues, forever-empty) queue; that a returned
`stop()` implies every worker has exited; and a constant pool size. -/
structure HInv (n : Nat) (s : HandlerSys) : Prop where
  conserve : (s.queue : Multiset Msg) + s.inflight + (s.processed : Multiset Msg)
      = (s.enqueued : Multiset Msg)
  run_idle : s.running = true ↔ s.stopPC = StopPC.idle
  qstop_pc : s.qstop = true ↔
      (s.stopPC = StopPC.qstopped ∨ s.stopPC = StopPC.returned)
  done_pc : WorkerPC.done ∈ s.workers → ¬ s.stopPC = StopPC.idle
  done_queue : WorkerPC.done ∈ s.workers → s.queue = []
  returned_done : s.stopPC = StopPC.returned → ∀ w ∈ s.workers, w = WorkerPC.done
  card_workers : Multiset.card s.workers = n

/-- A state whose `onEvent` hook never handles an event. -/
def stateInert : State := ⟨fun _ _ => false⟩

/-- A state whose `onEvent` hook handles exactly the event "go". -/
def stateHandlesGo : State := ⟨fun e _ => decide (e = "go")⟩

/-- The guard `payload > 10` used by the spec's guard-semantics example. -/
def guardGT10 : Payload → Bool := fun p => decide (10 < p)

/-- Two-state machine: states "A" and "B", unguarded transition
(A, go, B), initial state "A", started (so the retained history is
["A"]). -/
def smAB : StateMachine :=
  (((((StateMachine.mkNew.addState "A" (some stateInert)).2.addState "B"
      (some stateInert)).2.addTransition "A" "go" "B" none).2.setInitialState
      "A").2.start).2.1

/-- `smAB` after triggering "go" once: current state "B", retained
history ["A", "B"]. -/
def smABAfter : StateMachine := (smAB.triggerEvent "go" 0).2.1

/-- Two-state machine whose active state "A" handles the event "go"
itself, while a guarded transition (A, go, B) with guard `payload > 10`
is also registered; started in "A". -/
def smGuard : StateMachine :=
  (((((StateMachine.mkNew.addState "A" (some stateHandlesGo)).2.addState "B"
      (some stateInert)).2.addTransition "A" "go" "B"
      (some guardGT10)).2.setInitialState "A").2.start).2.1

lemma MessageQueue.dequeue_stopped_cons (l : List Msg) (m : Msg) :
    MessageQueue.dequeue ⟨m :: l, true⟩ = some (some m, ⟨l, true⟩) := by
  simp [MessageQueue.dequeue]

lemma MessageQueue.dequeue_stopped_nil :
    MessageQueue.dequeue ⟨[], true⟩ = some (none, ⟨[], true⟩) := by
  simp [MessageQueue.dequeue]

lemma MessageQueue.drainN_stopped (l : List Msg) :
    MessageQueue.drainN l.length ⟨l, true⟩ = l := by
  induction l with
  | nil => simp [MessageQueue.drainN]
  | cons m rest ih =>
      simp [MessageQueue.drainN, MessageQueue.dequeue_stopped_cons, ih]

lemma MessageQueue.dequeue_unstopped_cons (l : List Msg) (m : Msg) :
    MessageQueue.dequeue ⟨m :: l, false⟩ = some (some m, ⟨l, false⟩) := by
  simp [MessageQueue.dequeue]

lemma MessageQueue.drainN_unstopped (l : List Msg) :
    MessageQueue.drainN l.length ⟨l, false⟩ = l := by
  induction l with
  | nil => simp [MessageQueue.drainN]
  | cons m rest ih =>
      simp [MessageQueue.drainN, MessageQueue.dequeue_unstopped_cons, ih]

lemma MessageQueue.enqueueList_queue (s : MessageQueue) (es : List Msg)
    (h : s.stopped = false) :
    s.enqueueList es = ⟨s.queue ++ es, false⟩ := by
  induction es generalizing s with
  | nil =>
      cases s with
      | mk q st => cases h; simp [MessageQueue.enqueueList]
  | cons e rest ih =>
      cases s with
      | mk q st =>
        cases h
        have step : (MessageQueue.mk q false).enqueue (some e)
            = ⟨q ++ [e], false⟩ := by
          simp [MessageQueue.enqueue]
        simp only [MessageQueue.enqueueList, List.foldl_cons] at *
        rw [step]
        have := ih ⟨q ++ [e], false⟩ rfl
        simp [MessageQueue.enqueueList] at this
        simp [this]

/-- Claim C5: for every sequence of non-null messages enqueued into a
queue that is not stopped, dequeues return the messages in exactly that
order (FIFO): the enqueues append in order behind the existing items,
and draining a queue holding exactly that sequence yields it unchanged. -/
theorem C5_fifo_order (s : MessageQueue) (es : List Msg)
    (h : s.stopped = false) :
    (s.enqueueList es).queue = s.queue ++ es ∧
      (s.queue = [] → MessageQueue.drainN es.length (s.enqueueList es) = es) := by
  constructor
  · rw [MessageQueue.enqueueList_queue s es h]
  · intro hq
    rw [MessageQueue.enqueueList_queue s es h, hq]
    simpa using MessageQueue.drainN_unstopped es

/-- Witness for C5 at a concrete queue and message sequence. -/
theorem C5_fifo_order_witness :
    (MessageQueue.mk [] false).stopped = false ∧
      ((MessageQueue.mk [] false).enqueueList [3, 1, 2]).queue = [] ++ [3, 1, 2] ∧
      ((MessageQueue.mk [] false).queue = [] →
        MessageQueue.drainN 3 ((MessageQueue.mk [] false).enqueueList [3, 1, 2])
          = [3, 1, 2]) := by
  refine ⟨rfl, ?_⟩
  have h := C5_fifo_order (MessageQueue.mk [] false) [3, 1, 2] rfl
  exact h

/-- Claim C4: after `stop()`, the already-queued items remain
retrievable via `dequeue()` in order until the queue is empty; once
empty, `dequeue()` returns "none" immediately (it does not block); and
an `enqueue()` performed after `stop()` leaves `size()` unchanged. -/
theorem C4_stop_and_drain (s : MessageQueue) (msg : Option Msg) :
    (s.stop).queue = s.queue ∧
      MessageQueue.drainN s.queue.length s.stop = s.queue ∧
      (MessageQueue.stop ⟨[], s.stopped⟩).dequeue
        = some (none, MessageQueue.stop ⟨[], s.stopped⟩) ∧
      ((s.stop).dequeue).isSome = true ∧
      ((s.stop).enqueue msg).size = (s.stop).size := by
  refine ⟨rfl, ?_, ?_, ?_, ?_⟩
  · have := MessageQueue.drainN_stopped s.queue
    simpa [MessageQueue.stop] using this
  · simp [MessageQueue.stop, MessageQueue.dequeue_stopped_nil]
  · cases s with
    | mk q st =>
      cases q with
      | nil => simp [MessageQueue.stop, MessageQueue.dequeue]
      | cons m rest => simp [MessageQueue.stop, MessageQueue.dequeue]
  · cases msg with
    | none => rfl
    | some m => simp [MessageQueue.stop, MessageQueue.enqueue, MessageQueue.size]

lemma lookupA_setA_self {β : Type} (k : String) (v : β) (l : List (String × β)) :
    lookupA k (setA k v l) = some v := by
  induction l with
  | nil => simp [setA, lookupA]
  | cons p rest ih =>
      by_cases h : p.1 = k
      · simp [setA, h, lookupA]
      · cases p with
        | mk k' w =>
          simp only [] at h
          simp [setA, h, lookupA, ih]

lemma lookupA_mem {β : Type} {k : String} {v : β} {l : List (String × β)}
    (h : lookupA k l = some v) : (k, v) ∈ l := by
  induction l with
  | nil => simp [lookupA] at h
  | cons p rest ih =>
      cases p with
      | mk k' w =>
        by_cases hk : k' = k
        · subst hk
          simp [lookupA] at h
          simp [h]
        · simp [lookupA, hk] at h
          exact List.mem_cons_of_mem _ (ih h)

/-- Claim C1: the spec's sentinel says `getStateHistory(0)` returns the
full retained history, never an empty sequence, whenever the retained
history is non-empty.  The code computes the start index as
`size - 0 = size` and returns the empty sequence instead: a started
machine with retained history ["A", "B"] yields `[]`. -/
theorem C1_getStateHistory_zero :
    smABAfter.stateHistory = ["A", "B"] ∧
      smABAfter.getStateHistory 0 = [] ∧
      ¬ smABAfter.getStateHistory 0 = smABAfter.stateHistory := by
  decide

/-- Claim C6: when the active state's `onEvent` reports "handled" for an
event that also has a registered Transition from the current state, no
transition executes (the machine, in particular current state and
history, is unchanged) and `triggerEvent` returns true. -/
theorem C6_handled_precedence (sm : StateMachine) (st : State)
    (event : String) (p : Payload)
    (hrun : sm.running = true) (hcur : ¬ sm.currentState = "")
    (hst : lookupA sm.currentState sm.states = some st)
    (hhandled : st.handlesEvent event p = true)
    (_htrans : sm.isValidTransition sm.currentState event = true) :
    (sm.triggerEvent event p).1 = true ∧
      (sm.triggerEvent event p).2.1 = sm := by
  simp [StateMachine.triggerEvent, hrun, hcur, hst, hhandled]

/-- Witness for C6 on the concrete machine `smGuard`. -/
theorem C6_handled_precedence_witness :
    (smGuard.triggerEvent "go" 15).1 = true ∧
      (smGuard.triggerEvent "go" 15).2.1 = smGuard :=
  C6_handled_precedence smGuard stateHandlesGo "go" 15 rfl (by decide) rfl
    (by decide) rfl

/-- Claim C9: when both endpoints name registered states and a
Transition is already registered under the (from, event) key, a second
`addTransition` returns true even though the new registration is
discarded and the original Transition remains in force. -/
theorem C9_duplicate_addTransition (sm : StateMachine)
    (fromState event toState' : String) (g' : Option (Payload → Bool))
    (t0 : Transition)
    (hfrom : (lookupA fromState sm.states).isSome = true)
    (hto : (lookupA toState' sm.states).isSome = true)
    (hdup : lookupA event ((lookupA fromState sm.transitions).getD []) = some t0) :
    (sm.addTransition fromState event toState' g').1 = true ∧
      lookupA event
        ((lookupA fromState
            (sm.addTransition fromState event toState' g').2.transitions).getD [])
        = some t0 := by
  have hfrom' : ¬ (lookupA fromState sm.states).isNone := by
    simp [Option.isNone_iff_eq_none]
    intro hc
    rw [hc] at hfrom
    simp at hfrom
  have hto' : ¬ (lookupA toState' sm.states).isNone := by
    simp [Option.isNone_iff_eq_none]
    intro hc
    rw [hc] at hto
    simp at hto
  constructor
  · simp [StateMachine.addTransition, hfrom', hto']
  · simp only [StateMachine.addTransition]
    rw [if_neg (by simp [hfrom', hto'] : ¬ _)]
    simp only []
    rw [lookupA_setA_self]
    simp [insertIfAbsent, hdup]

/-- Witness for C9: a duplicate registration on `smAB`'s occupied
(A, go) key still returns true and keeps the original transition. -/
theorem C9_duplicate_addTransition_witness :
    (smAB.addTransition "A" "go" "A" (some guardGT10)).1 = true ∧
      lookupA "go"
        ((lookupA "A"
            (smAB.addTransition "A" "go" "A" (some guardGT10)).2.transitions).getD [])
        = some (Transition.mk "A" "go" "B" none) :=
  C9_duplicate_addTransition smAB "A" "go" "A" (some guardGT10)
    (Transition.mk "A" "go" "B" none) rfl rfl rfl

/-- Counterexample to claim C2: on the machine `smGuard` (guarded
transition (A, go, B) registered, active state "A" handling "go"), the
call trace of `triggerEvent("go", 15)` is
[guardEval, onEventCall(handled)], i.e. the guard IS evaluated during
the under-lock transition lookup, before the current state's `onEvent`
hook runs — and it is evaluated even though `onEvent` reports handled. -/
theorem C2_counterexample :
    (smGuard.triggerEvent "go" 15).2.2
        = [TraceEvent.guardEval "go" 15 true,
           TraceEvent.onEventCall "go" 15 true] ∧
      (smGuard.triggerEvent "go" 15).1 = true ∧
      (smGuard.triggerEvent "go" 15).2.1 = smGuard := by
  refine ⟨by decide, by decide, ?_⟩
  rfl

/-- Claim C2 as amended: for every event with a registered guarded
Transition from the current state, `triggerEvent` evaluates the guard
during the under-lock transition lookup (inside `findTransition`),
before the current State's `onEvent` hook is invoked — in particular the
guard is evaluated exactly once even when `onEvent` reports handled, in
which case no transition executes and the machine is unchanged. -/
theorem C2_amended (sm : StateMachine) (st : State)
    (inner : List (String × Transition)) (t : Transition) (g : Payload → Bool)
    (event : String) (p : Payload)
    (hrun : sm.running = true) (hcur : ¬ sm.currentState = "")
    (hst : lookupA sm.currentState sm.states = some st)
    (hinner : lookupA sm.currentState sm.transitions = some inner)
    (ht : lookupA event inner = some t)
    (hg : t.guard = some g) :
    ∃ rest, (sm.triggerEvent event p).2.2
        = TraceEvent.guardEval event p (g p)
          :: TraceEvent.onEventCall event p (st.handlesEvent event p) :: rest ∧
      (st.handlesEvent event p = true →
        (sm.triggerEvent event p).2.1 = sm ∧ rest = []) := by
  have hfind : sm.findTransition sm.currentState event p
      = (if g p then t.toState else "", [TraceEvent.guardEval event p (g p)]) := by
    by_cases hgp : g p = true
    · simp [StateMachine.findTransition, hinner, ht, hg, hgp]
    · simp at hgp
      simp [StateMachine.findTransition, hinner, ht, hg, hgp]
  by_cases hh : st.handlesEvent event p = true
  · refine ⟨[], ?_, fun _ => ⟨?_, rfl⟩⟩
    · simp [StateMachine.triggerEvent, hrun, hcur, hst, hh, hfind]
    · simp [StateMachine.triggerEvent, hrun, hcur, hst, hh]
  · by_cases hne : (if g p = true then t.toState else "") = ""
    · refine ⟨[], ?_, fun hcon => absurd hcon hh⟩
      simp [StateMachine.triggerEvent, hrun, hcur, hst, hh, hfind, hne]
    · refine ⟨(sm.performTransition (if g p = true then t.toState else "") p).2.2,
        ?_, fun hcon => absurd hcon hh⟩
      simp [StateMachine.triggerEvent, hrun, hcur, hst, hh, hfind, hne]

/-- Witness for the amended C2 on `smGuard` with payload 15. -/
theorem C2_amended_witness :
    smGuard.running = true ∧
      ¬ smGuard.currentState = "" ∧
      (Transition.mk "A" "go" "B" (some guardGT10)).guard = some guardGT10 ∧
      (∃ rest, (smGuard.triggerEvent "go" 15).2.2
          = TraceEvent.guardEval "go" 15 (guardGT10 15)
            :: TraceEvent.onEventCall "go" 15
                 (stateHandlesGo.handlesEvent "go" 15) :: rest ∧
        (stateHandlesGo.handlesEvent "go" 15 = true →
          (smGuard.triggerEvent "go" 15).2.1 = smGuard ∧ rest = [])) :=
  ⟨rfl, by decide, rfl,
    C2_amended smGuard stateHandlesGo
      [("go", Transition.mk "A" "go" "B" (some guardGT10))]
      (Transition.mk "A" "go" "B" (some guardGT10)) guardGT10 "go" 15
      rfl (by decide) rfl rfl rfl rfl⟩

lemma lastN_of_le {α : Type} (n : Nat) (l : List α) (h : l.length ≤ n) :
    lastN n l = l := by
  simp [lastN, Nat.sub_eq_zero_of_le h]

lemma lastN_append_absorb {α : Type} (n : Nat) (l r : List α) :
    lastN n (lastN n l ++ r) = lastN n (l ++ r) := by
  by_cases h : l.length ≤ n
  · rw [lastN_of_le n l h]
  · push_neg at h
    have hk : l.length - n ≤ l.length := Nat.sub_le _ _
    simp only [lastN, List.length_append, List.length_drop]
    rw [← List.drop_append_of_le_length hk, List.drop_drop]
    congr 1
    omega

lemma performTransition_hist (sm : StateMachine) (d : String)
    (hrun : sm.running = true) (hcur : ¬ sm.currentState = "")
    (hreg : (lookupA d sm.states).isSome = true)
    (hlen : sm.stateHistory.length ≤ 50) :
    (sm.performTransition d 0).2.1
      = { sm with currentState := d,
                  stateHistory := lastN 50 (sm.stateHistory ++ [d]) } := by
  obtain ⟨st, hst⟩ := Option.isSome_iff_exists.mp hreg
  simp only [StateMachine.performTransition, hrun, hcur, hst,
    StateMachine.MAX_HISTORY]
  have hwin : (if 50 < sm.stateHistory.length + 1 then (sm.stateHistory ++ [d]).tail
      else sm.stateHistory ++ [d]) = lastN 50 (sm.stateHistory ++ [d]) := by
    by_cases hgt : 50 < sm.stateHistory.length + 1
    · rw [if_pos hgt, ← List.drop_one]
      simp only [lastN, List.length_append, List.length_cons, List.length_nil]
      congr 1
      omega
    · rw [if_neg hgt, lastN_of_le 50 _
        (by simp only [List.length_append, List.length_cons, List.length_nil]; omega)]
  simp [hwin]

lemma runTransitions_window (dests : List String) :
    ∀ (sm : StateMachine), sm.running = true → ¬ sm.currentState = "" →
      (∀ d ∈ dests, (lookupA d sm.states).isSome = true ∧ ¬ d = "") →
      sm.stateHistory.length ≤ 50 →
      (sm.runTransitions dests).stateHistory = lastN 50 (sm.stateHistory ++ dests) := by
  induction dests with
  | nil =>
      intro sm _ _ _ hlen
      simp [StateMachine.runTransitions, lastN_of_le 50 _ (by simpa using hlen)]
  | cons d rest ih =>
      intro sm hrun hcur hreg hlen
      obtain ⟨hd, hdne⟩ := hreg d (by simp)
      have hstep := performTransition_hist sm d hrun hcur hd hlen
      have hrt : sm.runTransitions (d :: rest)
          = ((sm.performTransition d 0).2.1).runTransitions rest := by
        simp [StateMachine.runTransitions]
      have hlen' : (lastN 50 (sm.stateHistory ++ [d])).length ≤ 50 := by
        simp only [lastN, List.length_drop, List.length_append]
        omega
      have hreg' : ∀ d' ∈ rest, (lookupA d' sm.states).isSome = true ∧ ¬ d' = "" :=
        fun d' hd' => hreg d' (List.mem_cons_of_mem _ hd')
      have hkey := ih
        { sm with currentState := d,
                  stateHistory := lastN 50 (sm.stateHistory ++ [d]) }
        hrun hdne hreg' hlen'
      rw [hrt, hstep, hkey]
      simp only []
      rw [lastN_append_absorb]
      congr 1
      simp

/-- Claim C7: the state history is bounded at capacity 50 with
oldest-first eviction: every transition appends the destination state
and evicts the oldest entry when the capacity is exceeded, so a started
machine's retained history after any sequence of transitions is exactly
the most recent 50-entry window of the full chronological log, and
`getStateHistory` returns at most 50 entries for every limit. -/
theorem C7_history_bound (sm : StateMachine) (dests : List String)
    (hrun : sm.running = true) (hcur : ¬ sm.currentState = "")
    (hreg : ∀ d ∈ dests, (lookupA d sm.states).isSome = true ∧ ¬ d = "")
    (hlen : sm.stateHistory.length ≤ 50) :
    (sm.runTransitions dests).stateHistory = lastN 50 (sm.stateHistory ++ dests) ∧
      ∀ limit, ((sm.runTransitions dests).getStateHistory limit).length ≤ 50 := by
  have hw := runTransitions_window dests sm hrun hcur hreg hlen
  refine ⟨hw, fun limit => ?_⟩
  have hl : (sm.runTransitions dests).stateHistory.length ≤ 50 := by
    rw [hw]
    simp only [lastN, List.length_drop]
    omega
  have hd : ((sm.runTransitions dests).getStateHistory limit).length
      ≤ (sm.runTransitions dests).stateHistory.length := by
    simp only [StateMachine.getStateHistory, List.length_drop]
    omega
  omega

/-- Witness for C7: 60 transitions on the started machine `smAB`. -/
theorem C7_history_bound_witness :
    smAB.running = true ∧ ¬ smAB.currentState = "" ∧
      (∀ d ∈ List.replicate 60 "B",
        (lookupA d smAB.states).isSome = true ∧ ¬ d = "") ∧
      smAB.stateHistory.length ≤ 50 ∧
      ((smAB.runTransitions (List.replicate 60 "B")).stateHistory
          = lastN 50 (smAB.stateHistory ++ List.replicate 60 "B") ∧
        ∀ limit,
          ((smAB.runTransitions (List.replicate 60 "B")).getStateHistory
              limit).length ≤ 50) :=
  ⟨rfl, by decide, by decide, by decide,
    C7_history_bound smAB (List.replicate 60 "B") rfl (by decide) (by decide)
      (by decide)⟩

lemma lookupA_eq_none {β : Type} {k : String} {l : List (String × β)}
    (h : ¬ k ∈ l.map Prod.fst) : lookupA k l = none := by
  induction l with
  | nil => rfl
  | cons p rest ih =>
      cases p with
      | mk k' v =>
        simp only [List.map_cons, List.mem_cons, not_or] at h
        simp only [lookupA]
        rw [if_neg (fun hc : k' = k => h.1 hc.symm)]
        exact ih h.2

lemma keys_eraseA {β : Type} (k : String) (l : List (String × β))
    (h : (l.map Prod.fst).Nodup) : ¬ k ∈ (eraseA k l).map Prod.fst := by
  induction l with
  | nil => simp [eraseA]
  | cons p rest ih =>
      cases p with
      | mk k' v =>
        simp only [List.map_cons, List.nodup_cons] at h
        obtain ⟨hnotin, hnd⟩ := h
        by_cases hk : k' = k
        · subst hk
          simp only [eraseA, if_pos rfl]
          exact hnotin
        · simp only [eraseA, if_neg hk, List.map_cons, List.mem_cons, not_or]
          exact ⟨fun hc => hk hc.symm, ih hnd⟩

lemma removeState_success (sm : StateMachine) (name : String) (st : State)
    (hcond : ¬(sm.currentState = name ∧ sm.running = true))
    (hst : lookupA name sm.states = some st) :
    sm.removeState name
      = (true, { sm with states := eraseA name sm.states,
                         transitions := purgeTransitionsOf name sm.transitions }) := by
  simp only [StateMachine.removeState, hst]
  rw [if_neg hcond]

/-- Claim C8: `removeState(name)` fails (and changes nothing) when
`name` is the active state of a running machine; otherwise, for a
registered name, it succeeds and purges every Transition whose from- or
to-endpoint is that name (no dangling endpoints remain); and after
`stop()` the same call on the formerly active name succeeds.  The Nodup
hypotheses state the key-uniqueness invariant of `std::unordered_map`. -/
theorem C8_removeState (sm : StateMachine) (name : String)
    (hreg : (lookupA name sm.states).isSome = true)
    (hnodupS : (sm.states.map Prod.fst).Nodup)
    (hnodupT : (sm.transitions.map Prod.fst).Nodup) :
    (sm.currentState = name ∧ sm.running = true →
        (sm.removeState name).1 = false ∧ (sm.removeState name).2 = sm) ∧
      (¬(sm.currentState = name ∧ sm.running = true) →
        (sm.removeState name).1 = true ∧
          lookupA name (sm.removeState name).2.states = none ∧
          lookupA name (sm.removeState name).2.transitions = none ∧
          (∀ f inner, lookupA f (sm.removeState name).2.transitions = some inner →
            ∀ ev t, lookupA ev inner = some t → ¬ t.toState = name)) ∧
      (sm.running = true → sm.currentState = name →
        ((sm.stop).1.removeState name).1 = true) := by
  obtain ⟨st, hst⟩ := Option.isSome_iff_exists.mp hreg
  refine ⟨?_, ?_, ?_⟩
  · intro hcond
    constructor <;> simp [StateMachine.removeState, hcond.1, hcond.2]
  · intro hcond
    have hrs := removeState_success sm name st hcond hst
    rw [hrs]
    refine ⟨rfl, ?_, ?_, ?_⟩
    · exact lookupA_eq_none (keys_eraseA name sm.states hnodupS)
    · apply lookupA_eq_none
      have hkeys : ((purgeTransitionsOf name sm.transitions).map Prod.fst)
          = (eraseA name sm.transitions).map Prod.fst := by
        simp [purgeTransitionsOf, List.map_map, Function.comp]
      rw [hkeys]
      exact keys_eraseA name sm.transitions hnodupT
    · intro f inner hlook ev t ht
      have hmem := lookupA_mem hlook
      simp only [purgeTransitionsOf] at hmem
      obtain ⟨p, hp, heq⟩ := List.mem_map.mp hmem
      have hinner : inner = p.2.filter fun q => decide ¬(q.2.toState = name) := by
        have h2 := congrArg Prod.snd heq
        simpa using h2.symm
      have hmem2 := lookupA_mem ht
      rw [hinner] at hmem2
      have hf := List.mem_filter.mp hmem2
      exact of_decide_eq_true hf.2
  · intro hrun hcur
    have hstop : (sm.stop).1 = { sm with running := false, currentState := "" } := by
      simp [StateMachine.stop, hrun]
    rw [hstop]
    simp [StateMachine.removeState, hst]

/-- Witness for C8 on `smAB` (running, active state "A"). -/
theorem C8_removeState_witness :
    (lookupA "A" smAB.states).isSome = true ∧
      (smAB.states.map Prod.fst).Nodup ∧
      (smAB.transitions.map Prod.fst).Nodup ∧
      ((smAB.currentState = "A" ∧ smAB.running = true →
          (smAB.removeState "A").1 = false ∧ (smAB.removeState "A").2 = smAB) ∧
        (¬(smAB.currentState = "A" ∧ smAB.running = true) →
          (smAB.removeState "A").1 = true ∧
            lookupA "A" (smAB.removeState "A").2.states = none ∧
            lookupA "A" (smAB.removeState "A").2.transitions = none ∧
            (∀ f inner,
              lookupA f (smAB.removeState "A").2.transitions = some inner →
                ∀ ev t, lookupA ev inner = some t → ¬ t.toState = "A")) ∧
        (smAB.running = true → smAB.currentState = "A" →
          ((smAB.stop).1.removeState "A").1 = true)) :=
  ⟨rfl, by decide, by decide,
    C8_removeState smAB "A" rfl (by decide) (by decide)⟩

lemma applyOp_stopped (s : MessageQueue) (op : QueueOp) (h : s.stopped = true) :
    (s.applyOp op).stopped = true := by
  cases op with
  | enqueueOp m =>
      cases m with
      | none => exact h
      | some m' => simp [MessageQueue.applyOp, MessageQueue.enqueue, h]
  | dequeueOp =>
      cases s with
      | mk q st =>
        cases h
        cases q <;> simp [MessageQueue.applyOp, MessageQueue.dequeue]
  | tryDequeueOp =>
      cases s with
      | mk q st =>
        cases h
        cases q <;> simp [MessageQueue.applyOp, MessageQueue.tryDequeue]
  | stopOp => simp [MessageQueue.applyOp, MessageQueue.stop]
  | clearOp => simpa [MessageQueue.applyOp, MessageQueue.clear] using h

lemma foldl_applyOp_stopped (ops : List QueueOp) :
    ∀ s : MessageQueue, s.stopped = true →
      (ops.foldl MessageQueue.applyOp s).stopped = true := by
  induction ops with
  | nil =>
      intro s h
      simpa using h
  | cons op rest ih =>
      intro s h
      exact ih _ (applyOp_stopped s op h)

/-- Claim C10: once the queue has been stopped (as `MessageHandler::stop`
does), it stays stopped under every sequence of interface calls — the
`MessageQueue` interface offers no operation that clears the flag —
every later enqueue is rejected, and once drained a worker of a
restarted handler gets "none" from its first `dequeue` and processes
nothing. -/
theorem C10_stop_is_permanent (s : MessageQueue) (ops : List QueueOp)
    (msg : Option Msg) (fuel : Nat) (h : s.stopped = true) :
    (ops.foldl MessageQueue.applyOp s).stopped = true ∧
      (s.enqueue msg).queue = s.queue ∧
      (s.queue = [] →
        s.dequeue = some (none, s) ∧ workerLoop true fuel s [] = []) := by
  refine ⟨foldl_applyOp_stopped ops s h, ?_, ?_⟩
  · cases msg with
    | none => rfl
    | some m => simp [MessageQueue.enqueue, h]
  · intro hq
    cases s with
    | mk q st =>
      cases h
      cases hq
      refine ⟨by simp [MessageQueue.dequeue], ?_⟩
      cases fuel with
      | zero => rfl
      | succ n => simp [workerLoop, MessageQueue.dequeue]

/-- Witness for C10 on a stopped empty queue and a four-call op list. -/
theorem C10_stop_is_permanent_witness :
    (MessageQueue.mk [] true).stopped = true ∧
      (((([QueueOp.stopOp, QueueOp.enqueueOp (some 3), QueueOp.dequeueOp,
            QueueOp.clearOp] : List QueueOp).foldl MessageQueue.applyOp
          (MessageQueue.mk [] true)).stopped = true) ∧
        ((MessageQueue.mk [] true).enqueue (some 5)).queue
            = (MessageQueue.mk [] true).queue ∧
        ((MessageQueue.mk [] true).queue = [] →
          (MessageQueue.mk [] true).dequeue
              = some (none, MessageQueue.mk [] true) ∧
            workerLoop true 4 (MessageQueue.mk [] true) [] = [])) :=
  ⟨rfl,
    C10_stop_is_permanent (MessageQueue.mk [] true)
      [QueueOp.stopOp, QueueOp.enqueueOp (some 3), QueueOp.dequeueOp,
        QueueOp.clearOp] (some 5) 4 rfl⟩

lemma sum_held_cons (a : WorkerPC) (ws : Multiset WorkerPC) :
    ((a ::ₘ ws).map WorkerPC.held).sum
      = WorkerPC.held a + (ws.map WorkerPC.held).sum := by
  simp [Multiset.map_cons, Multiset.sum_cons]

lemma coe_cons_msg (m : Msg) (l : List Msg) :
    ((m :: l : List Msg) : Multiset Msg) = {m} + ↑l := rfl

lemma coe_append_msg (l r : List Msg) :
    ((l ++ r : List Msg) : Multiset Msg) = ↑l + ↑r := rfl

lemma HInv_init (msgs : List Msg) (n : Nat) : HInv n (initSys msgs n) := by
  refine ⟨?_, ?_, ?_, ?_, ?_, ?_, ?_⟩
  · simp [initSys, HandlerSys.inflight, WorkerPC.held]
  · simp [initSys]
  · simp [initSys]
  · intro hmem
    exact WorkerPC.noConfusion (Multiset.eq_of_mem_replicate hmem)
  · intro hmem
    exact WorkerPC.noConfusion (Multiset.eq_of_mem_replicate hmem)
  · intro hpc
    exact StopPC.noConfusion hpc
  · simp [initSys]

lemma done_transfer {a b : WorkerPC} {ws : Multiset WorkerPC}
    (hne : ¬ a = WorkerPC.done)
    (hmem : WorkerPC.done ∈ a ::ₘ ws) : WorkerPC.done ∈ b ::ₘ ws := by
  rcases Multiset.mem_cons.mp hmem with he | hm
  · exact absurd he.symm hne
  · exact Multiset.mem_cons_of_mem hm

lemma no_step_when_returned {s : HandlerSys} {n : Nat} (hi : HInv n s)
    {b : WorkerPC} {ws : Multiset WorkerPC} (h : s.workers = b ::ₘ ws)
    (hb : ¬ b = WorkerPC.done) (hpc : s.stopPC = StopPC.returned) : False := by
  have hbd := hi.returned_done hpc b (by rw [h]; exact Multiset.mem_cons_self b ws)
  exact hb hbd

lemma HInv_step {n : Nat} {s t : HandlerSys} (hst : HStepNoRace s t)
    (hi : HInv n s) : HInv n t := by
  obtain ⟨hstep, hnr⟩ := hst
  cases hstep with
  | enqueue m hq =>
      have hidle : s.stopPC = StopPC.idle := by
        rcases hnr with h | h
        · exact h
        · exfalso
          have hlen := congrArg List.length h
          simp at hlen
      refine ⟨?_, hi.run_idle, hi.qstop_pc, hi.done_pc, ?_, ?_, hi.card_workers⟩
      · show ((s.queue ++ [m] : List Msg) : Multiset Msg) + s.inflight
            + ↑s.processed = ↑(s.enqueued ++ [m])
        rw [coe_append_msg, coe_append_msg, ← hi.conserve]
        abel
      · intro hmem
        exact absurd hidle (hi.done_pc hmem)
      · intro hpc
        rw [hidle] at hpc
        exact StopPC.noConfusion hpc
  | checkEnter ws h hc =>
      refine ⟨?_, hi.run_idle, hi.qstop_pc, ?_, ?_, ?_, ?_⟩
      · show (s.queue : Multiset Msg)
            + ((WorkerPC.dequeuing ::ₘ ws).map WorkerPC.held).sum
            + ↑s.processed = ↑s.enqueued
        have hc0 := hi.conserve
        rw [show s.inflight = (s.workers.map WorkerPC.held).sum from rfl, h,
          sum_held_cons] at hc0
        rw [sum_held_cons]
        simpa [WorkerPC.held] using hc0
      · intro hmem
        apply hi.done_pc
        rw [h]
        exact done_transfer (fun hh => WorkerPC.noConfusion hh) hmem
      · intro hmem
        apply hi.done_queue
        rw [h]
        exact done_transfer (fun hh => WorkerPC.noConfusion hh) hmem
      · intro hpc
        exact (no_step_when_returned hi h (fun hh => WorkerPC.noConfusion hh) hpc).elim
      · show Multiset.card (WorkerPC.dequeuing ::ₘ ws) = n
        have := hi.card_workers
        rw [h] at this
        simpa using this
  | checkExit ws h hr hq =>
      refine ⟨?_, hi.run_idle, hi.qstop_pc, ?_, ?_, ?_, ?_⟩
      · show (s.queue : Multiset Msg)
            + ((WorkerPC.done ::ₘ ws).map WorkerPC.held).sum
            + ↑s.processed = ↑s.enqueued
        have hc0 := hi.conserve
        rw [show s.inflight = (s.workers.map WorkerPC.held).sum from rfl, h,
          sum_held_cons] at hc0
        rw [sum_held_cons]
        simpa [WorkerPC.held] using hc0
      · intro _ hpc
        have h1 := hi.run_idle.mpr hpc
        rw [hr] at h1
        exact Bool.noConfusion h1
      · intro _
        exact hq
      · intro hpc
        exact (no_step_when_returned hi h (fun hh => WorkerPC.noConfusion hh) hpc).elim
      · show Multiset.card (WorkerPC.done ::ₘ ws) = n
        have := hi.card_workers
        rw [h] at this
        simpa using this
  | deqPop ws m rest h hq =>
      refine ⟨?_, hi.run_idle, hi.qstop_pc, ?_, ?_, ?_, ?_⟩
      · show (rest : Multiset Msg)
            + ((WorkerPC.processing m ::ₘ ws).map WorkerPC.held).sum
            + ↑s.processed = ↑s.enqueued
        have hc0 := hi.conserve
        rw [show s.inflight = (s.workers.map WorkerPC.held).sum from rfl, h,
          sum_held_cons, hq, coe_cons_msg] at hc0
        rw [sum_held_cons]
        simp only [WorkerPC.held] at hc0 ⊢
        rw [← hc0]
        abel
      · intro hmem
        apply hi.done_pc
        rw [h]
        exact done_transfer (fun hh => WorkerPC.noConfusion hh) hmem
      · intro hmem
        exfalso
        have hqe := hi.done_queue (by
          rw [h]
          exact done_transfer (fun hh => WorkerPC.noConfusion hh) hmem)
        rw [hq] at hqe
        exact List.noConfusion hqe
      · intro hpc
        exact (no_step_when_returned hi h (fun hh => WorkerPC.noConfusion hh) hpc).elim
      · show Multiset.card (WorkerPC.processing m ::ₘ ws) = n
        have := hi.card_workers
        rw [h] at this
        simpa using this
  | deqNone ws h hq hs =>
      refine ⟨?_, hi.run_idle, hi.qstop_pc, ?_, ?_, ?_, ?_⟩
      · show (s.queue : Multiset Msg)
            + ((WorkerPC.done ::ₘ ws).map WorkerPC.held).sum
            + ↑s.processed = ↑s.enqueued
        have hc0 := hi.conserve
        rw [show s.inflight = (s.workers.map WorkerPC.held).sum from rfl, h,
          sum_held_cons] at hc0
        rw [sum_held_cons]
        simpa [WorkerPC.held] using hc0
      · intro _ hpc
        rcases hi.qstop_pc.mp hs with h1 | h1 <;> rw [hpc] at h1 <;>
          exact StopPC.noConfusion h1
      · intro _
        exact hq
      · intro hpc
        exact (no_step_when_returned hi h (fun hh => WorkerPC.noConfusion hh) hpc).elim
      · show Multiset.card (WorkerPC.done ::ₘ ws) = n
        have := hi.card_workers
        rw [h] at this
        simpa using this
  | processStep ws m h =>
      refine ⟨?_, hi.run_idle, hi.qstop_pc, ?_, ?_, ?_, ?_⟩
      · show (s.queue : Multiset Msg)
            + ((WorkerPC.check ::ₘ ws).map WorkerPC.held).sum
            + ↑(s.processed ++ [m]) = ↑s.enqueued
        have hc0 := hi.conserve
        rw [show s.inflight = (s.workers.map WorkerPC.held).sum from rfl, h,
          sum_held_cons] at hc0
        rw [sum_held_cons, coe_append_msg, Multiset.coe_singleton]
        simp only [WorkerPC.held] at hc0 ⊢
        rw [← hc0]
        abel
      · intro hmem
        apply hi.done_pc
        rw [h]
        exact done_transfer (fun hh => WorkerPC.noConfusion hh) hmem
      · intro hmem
        apply hi.done_queue
        rw [h]
        exact done_transfer (fun hh => WorkerPC.noConfusion hh) hmem
      · intro hpc
        exact (no_step_when_returned hi h (fun hh => WorkerPC.noConfusion hh) hpc).elim
      · show Multiset.card (WorkerPC.check ::ₘ ws) = n
        have := hi.card_workers
        rw [h] at this
        simpa using this
  | stopClear h =>
      refine ⟨hi.conserve, ?_, ?_, ?_, hi.done_queue, ?_, hi.card_workers⟩
      · show (false = true) ↔ (StopPC.cleared = StopPC.idle)
        constructor
        · intro h1
          exact Bool.noConfusion h1
        · intro h1
          exact StopPC.noConfusion h1
      · show s.qstop = true ↔
            (StopPC.cleared = StopPC.qstopped ∨ StopPC.cleared = StopPC.returned)
        constructor
        · intro hq
          rcases hi.qstop_pc.mp hq with h1 | h1 <;> rw [h] at h1 <;>
            exact StopPC.noConfusion h1
        · intro hor
          rcases hor with h1 | h1 <;> exact StopPC.noConfusion h1
      · intro _ hpc
        exact StopPC.noConfusion hpc
      · intro hpc
        exact StopPC.noConfusion hpc
  | stopQueue h =>
      refine ⟨hi.conserve, ?_, ?_, ?_, hi.done_queue, ?_, hi.card_workers⟩
      · show s.running = true ↔ (StopPC.qstopped = StopPC.idle)
        constructor
        · intro hr
          have h1 := hi.run_idle.mp hr
          rw [h] at h1
          exact StopPC.noConfusion h1
        · intro h1
          exact StopPC.noConfusion h1
      · show (true = true) ↔
            (StopPC.qstopped = StopPC.qstopped ∨ StopPC.qstopped = StopPC.returned)
        simp
      · intro _ hpc
        exact StopPC.noConfusion hpc
      · intro hpc
        exact StopPC.noConfusion hpc
  | stopJoin h hw =>
      refine ⟨hi.conserve, ?_, ?_, ?_, hi.done_queue, ?_, hi.card_workers⟩
      · show s.running = true ↔ (StopPC.returned = StopPC.idle)
        constructor
        · intro hr
          have h1 := hi.run_idle.mp hr
          rw [h] at h1
          exact StopPC.noConfusion h1
        · intro h1
          exact StopPC.noConfusion h1
      · show s.qstop = true ↔
            (StopPC.returned = StopPC.qstopped ∨ StopPC.returned = StopPC.returned)
        constructor
        · intro _
          exact Or.inr rfl
        · intro _
          exact hi.qstop_pc.mpr (Or.inl h)
      · intro _ hpc
        exact StopPC.noConfusion hpc
      · intro _
        exact hw

lemma HInv_reach {msgs : List Msg} {n : Nat} {s : HandlerSys}
    (h : HReachNoRace (initSys msgs n) s) : HInv n s := by
  induction h with
  | refl => exact HInv_init msgs n
  | tail _ hstep ih => exact HInv_step hstep ih

/-- Claim C3 as amended: provided no enqueue is accepted after `stop()`
has cleared the handler's running flag (all K messages are enqueued
before `stop()` begins), `stop()` does not return until every enqueued
message has been processed: in any interleaving that reaches a state
where `stop()` has returned, with pool size at least 1, the processed
log is a permutation of the enqueued log (each message processed exactly
once) and the number of processor invocations equals K. -/
theorem C3_amended (msgs : List Msg) (n : Nat) (s : HandlerSys)
    (hreach : HReachNoRace (initSys msgs n) s)
    (hret : s.stopPC = StopPC.returned) (hn : 1 ≤ n) :
    (s.processed : Multiset Msg) = (s.enqueued : Multiset Msg) ∧
      s.processed.length = s.enqueued.length := by
  have hi := HInv_reach hreach
  have hall := hi.returned_done hret
  have hinf : s.inflight = 0 := by
    apply Multiset.sum_eq_zero
    intro x hx
    obtain ⟨w, hw, rfl⟩ := Multiset.mem_map.mp hx
    rw [hall w hw]
    rfl
  have hpos : 0 < Multiset.card s.workers := by
    rw [hi.card_workers]
    omega
  obtain ⟨w, hw⟩ := Multiset.card_pos_iff_exists_mem.mp hpos
  have hdone : WorkerPC.done ∈ s.workers := by
    rw [← hall w hw]
    exact hw
  have hq : s.queue = [] := hi.done_queue hdone
  have hc := hi.conserve
  rw [hq, hinf] at hc
  simp only [Multiset.coe_nil, add_zero, zero_add] at hc
  refine ⟨hc, ?_⟩
  have := congrArg Multiset.card hc
  simpa using this

/-- Witness for the amended C3: a complete run with one worker and one
message, through dequeue, process, stop, drain-exit and join. -/
theorem C3_amended_witness :
    HReachNoRace (initSys [5] 1)
        ⟨[], [5], [5], false, true, StopPC.returned, {WorkerPC.done}⟩ ∧
      (HandlerSys.mk [] [5] [5] false true StopPC.returned
          {WorkerPC.done}).stopPC = StopPC.returned ∧
      1 ≤ 1 ∧
      (((HandlerSys.mk [] [5] [5] false true StopPC.returned
            {WorkerPC.done}).processed : Multiset Msg)
          = ↑(HandlerSys.mk [] [5] [5] false true StopPC.returned
              {WorkerPC.done}).enqueued ∧
        (HandlerSys.mk [] [5] [5] false true StopPC.returned
            {WorkerPC.done}).processed.length
          = (HandlerSys.mk [] [5] [5] false true StopPC.returned
              {WorkerPC.done}).enqueued.length) := by
  have hchain : HReachNoRace (initSys [5] 1)
      ⟨[], [5], [5], false, true, StopPC.returned, {WorkerPC.done}⟩ := by
    refine Relation.ReflTransGen.head
      ⟨HStep.checkEnter (initSys [5] 1) 0 rfl (Or.inl rfl), Or.inr rfl⟩ ?_
    refine Relation.ReflTransGen.head
      ⟨HStep.deqPop _ 0 5 [] rfl rfl, Or.inr rfl⟩ ?_
    refine Relation.ReflTransGen.head
      ⟨HStep.processStep _ 0 5 rfl, Or.inr rfl⟩ ?_
    refine Relation.ReflTransGen.head
      ⟨HStep.stopClear _ rfl, Or.inr rfl⟩ ?_
    refine Relation.ReflTransGen.head
      ⟨HStep.stopQueue _ rfl, Or.inr rfl⟩ ?_
    refine Relation.ReflTransGen.head
      ⟨HStep.checkExit _ 0 rfl rfl rfl, Or.inr rfl⟩ ?_
    exact Relation.ReflTransGen.single
      ⟨HStep.stopJoin _ rfl (by intro w hw; simpa using hw), Or.inr rfl⟩
  exact ⟨hchain, rfl, by omega,
    C3_amended [5] 1 ⟨[], [5], [5], false, true, StopPC.returned, {WorkerPC.done}⟩
      hchain rfl (by omega)⟩

/-- Counterexample to claim C3 as stated: an interleaving of the real
code in which a message (7) is enqueued strictly before the queue's stop
signal (the enqueue is accepted, `qstop` still false), yet
`MessageHandler::stop()` returns with the message unprocessed.  The
worker observes `running_ = false` with a momentarily empty queue and
exits; the producer's enqueue lands between `running_.store(false)` and
`queue_.stop()`; join then finds the only worker already gone. -/
theorem C3_counterexample :
    ∃ s : HandlerSys, HReach (initSys [] 1) s ∧
      s.stopPC = StopPC.returned ∧ s.enqueued = [7] ∧ s.processed = [] := by
  refine ⟨⟨[7], [7], [], false, true, StopPC.returned, {WorkerPC.done}⟩,
    ?_, rfl, rfl, rfl⟩
  refine Relation.ReflTransGen.head (HStep.stopClear (initSys [] 1) rfl) ?_
  refine Relation.ReflTransGen.head (HStep.checkExit _ 0 rfl rfl rfl) ?_
  refine Relation.ReflTransGen.head (HStep.enqueue _ 7 rfl) ?_
  refine Relation.ReflTransGen.head (HStep.stopQueue _ rfl) ?_
  exact Relation.ReflTransGen.single
    (HStep.stopJoin _ rfl (by intro w hw; simpa using hw))
